import Mathlib

/-!
Verification development for the coax reinforcement-learning library excerpt:
the n-step reward-tracing cache (`NStepCache` in
`coax/reward_tracing/_nstep.py`), the TD-target construction
(`SimpleTD.target_func` in `coax/td_learning/_simple_td.py`), and the
dynamics-model construction/call contract (documented by
`coax/_core/dynamics_model_test.py` and the spec).

States and actions are opaque payloads, embedded as type parameters `σ` and
`α`; rewards, log-probabilities, discount factors and values are embedded as
rationals (`ℚ`), which model the exact real arithmetic of the source.
Stateful Python methods become pure state-passing functions; methods that
raise become `Except`-valued functions, where returning `.error e` models
raising exception `e` before any mutation has happened.
-/

deriving instance DecidableEq for Except

namespace Coax

/-- Errors raised by the short-term cache (`coax/_base/errors.py` names:
`EpisodeDoneError`, `InsufficientCacheError`). -/
inductive CacheError where
  | episodeDone
  | insufficientCache
deriving DecidableEq, Repr

/-- One environment step as fed to `NStepCache.add`:
state `s`, action `a`, reward `r`, terminal flag `done`, log-propensity `logp`. -/
structure Step (σ α : Type) where
  s : σ
  a : α
  r : ℚ
  done : Bool
  logp : ℚ
deriving DecidableEq, Repr

/-- A single transition, as built inside `NStepCache.pop`
(`TransitionSingle(s=s, a=a, logp=logp, r=rn, done=done, s_next=s_next,
a_next=a_next, logp_next=logp_next)`). -/
structure TransitionSingle (σ α : Type) where
  s : σ
  a : α
  logp : ℚ
  r : ℚ
  done : Bool
  s_next : σ
  a_next : α
  logp_next : ℚ
deriving DecidableEq, Repr

/-- The batched transition form. Field order matches the tuple order of the
source named tuple: `S, A, logp, Rn, In, S_next, A_next, logp_next`, so that
indices 3..5 are `Rn, In, S_next` (as used by `transition_batch[3:6]` in
`SimpleTD.target_func`). -/
structure TransitionBatch (σ α : Type) where
  S : σ
  A : α
  logp : ℚ
  Rn : ℚ
  In : ℚ
  S_next : σ
  A_next : α
  logp_next : ℚ
deriving DecidableEq, Repr

/-- Modelled from the spec: `TransitionSingle.to_batch` lives in
`coax/reward_tracing/_transition.py`, which is not part of the excerpt.
Per the spec's data model, the batch carries the same fields and `In` is
"the bootstrap indicator/discount factor (0 if the bootstrap target is
terminal, else `gamma^n`)"; `pop` calls it with `gamma = gamman`. -/
def TransitionSingle.to_batch {σ α : Type} (t : TransitionSingle σ α) (gamma : ℚ) :
    TransitionBatch σ α :=
  { S := t.s, A := t.a, logp := t.logp, Rn := t.r,
    In := if t.done then 0 else gamma,
    S_next := t.s_next, A_next := t.a_next, logp_next := t.logp_next }

/-- The short-term n-step cache state (`NStepCache`): two parallel queues
`_deque_sap` (of `(s, a, logp)` triples) and `_deque_r` (of rewards), a
`_done` flag, and the precomputed discount vectors
`_gammas = [gamma^0, ..., gamma^(n-1)]` and `_gamman = gamma^n`. -/
structure NStepCache (σ α : Type) where
  n : ℕ
  gamma : ℚ
  deque_sap : List (σ × α × ℚ)
  deque_r : List ℚ
  done : Bool
  gammas : List ℚ
  gamman : ℚ
deriving DecidableEq, Repr

namespace NStepCache

variable {σ α : Type}

/-- `NStepCache.reset`: clears both queues, clears `_done`, recomputes
`_gammas = gamma ** arange(n)` and `_gamman = gamma ** n`. -/
def reset (c : NStepCache σ α) : NStepCache σ α :=
  { c with
    deque_sap := []
    deque_r := []
    done := false
    gammas := (List.range c.n).map (fun k => c.gamma ^ k)
    gamman := c.gamma ^ c.n }

/-- `NStepCache.__init__(env, n, gamma)`: stores `n` and `gamma` and calls
`reset`. -/
def init (n : ℕ) (gamma : ℚ) : NStepCache σ α :=
  reset { n := n, gamma := gamma, deque_sap := [], deque_r := [],
          done := false, gammas := [], gamman := 1 }

/-- `NStepCache.__len__`: the length of `_deque_sap`. -/
def len (c : NStepCache σ α) : ℕ :=
  c.deque_sap.length

/-- `NStepCache.__bool__`: `bool(len(self)) and (self._done or len(self) > self.n)`. -/
def ready (c : NStepCache σ α) : Bool :=
  (c.len != 0) && (c.done || decide (c.len > c.n))

/-- `NStepCache.add(s, a, r, done, logp=0.0)`: raises `EpisodeDoneError` if
`self._done and len(self)`; otherwise appends `(s, a, logp)` to `_deque_sap`,
`r` to `_deque_r`, and sets `_done = bool(done)`. -/
def add (c : NStepCache σ α) (s : σ) (a : α) (r : ℚ) (done : Bool)
    (logp : ℚ := 0) : Except CacheError (NStepCache σ α) :=
  if c.done && decide (c.len ≠ 0) then
    .error .episodeDone
  else
    .ok { c with
          deque_sap := c.deque_sap ++ [(s, a, logp)]
          deque_r := c.deque_r ++ [r]
          done := done }

/-- `NStepCache.pop()`: raises `InsufficientCacheError` if `not self`;
otherwise pops the oldest `(s, a, logp)` from `_deque_sap`, computes the
n-step return `rn = sum(x * r for x, r in islice(zip(self._gammas,
self._deque_r), self.n))`, pops the oldest reward, then (with the already
shortened `_deque_sap`) either takes the bootstrap anchor
`_deque_sap[self.n - 1]` with `done = False` when `len(self) >= self.n`,
or collapses the anchor to the popped `(s, a, logp)` with `done = True`,
and returns `TransitionSingle(...).to_batch(gamma=self._gamman)`. -/
def pop (c : NStepCache σ α) : Except CacheError (TransitionBatch σ α × NStepCache σ α) :=
  if c.ready then
    match c.deque_sap with
    | [] => .error .insufficientCache
    | (s, a, logp) :: sapRest =>
      let rn : ℚ := ((((c.gammas.zip c.deque_r)).take c.n).map (fun p => p.1 * p.2)).sum
      let rRest := c.deque_r.tail
      let anchor : σ × α × ℚ × Bool :=
        if sapRest.length ≥ c.n then
          let x := sapRest.getD (c.n - 1) (s, a, logp)
          (x.1, x.2.1, x.2.2, false)
        else
          (s, a, logp, true)
      let t : TransitionSingle σ α :=
        { s := s, a := a, logp := logp, r := rn, done := anchor.2.2.2,
          s_next := anchor.1, a_next := anchor.2.1, logp_next := anchor.2.2.1 }
      .ok (t.to_batch c.gamman, { c with deque_sap := sapRest, deque_r := rRest })
  else
    .error .insufficientCache

/-- Fold a list of steps through `add`, stopping at the first error: the
caller-side loop `for step in steps: cache.add(*step)`. -/
def addAll (c : NStepCache σ α) : List (Step σ α) → Except CacheError (NStepCache σ α)
  | [] => .ok c
  | st :: rest =>
    match c.add st.s st.a st.r st.done st.logp with
    | .error e => .error e
    | .ok c' => addAll c' rest

end NStepCache

/-! ## Helper lemmas -/

/-- The `(s, a, logp)` triple recorded in `_deque_sap` for one step. -/
def Step.sap {σ α : Type} (st : Step σ α) : σ × α × ℚ :=
  (st.s, st.a, st.logp)

namespace NStepCache

variable {σ α : Type}

/-- Feeding a cache whose `done` flag is clear a list of non-terminal steps
never raises, and appends the step data to both queues in order. -/
theorem addAll_ok (steps : List (Step σ α)) (c : NStepCache σ α)
    (hc : c.done = false) (hsteps : ∀ st ∈ steps, st.done = false) :
    addAll c steps = .ok
      { c with
        deque_sap := c.deque_sap ++ steps.map Step.sap
        deque_r := c.deque_r ++ steps.map Step.r
        done := false } := by
  induction steps generalizing c with
  | nil =>
    simp only [addAll, List.map_nil, List.append_nil]
    cases c
    simp_all
  | cons st rest ih =>
    have hst : st.done = false := hsteps st (List.mem_cons_self st rest)
    have hrest : ∀ s ∈ rest, s.done = false := fun s hs => hsteps s (List.mem_cons_of_mem st hs)
    simp only [addAll, add, hc, Bool.false_and, Bool.false_eq_true, if_neg, ite_false,
      Bool.false_or]
    rw [ih _ hst hrest]
    simp [Step.sap, List.append_assoc]

end NStepCache

/-- The pointwise-product sum of two zipped lists of rationals, as an indexed
sum over the shorter length. -/
theorem sum_map_mul_zip (as : List ℚ) : ∀ bs : List ℚ,
    ((as.zip bs).map (fun p => p.1 * p.2)).sum
      = ∑ k ∈ Finset.range (min as.length bs.length), as.getD k 0 * bs.getD k 0 := by
  induction as with
  | nil => intro bs; simp
  | cons a as' ih =>
    intro bs
    cases bs with
    | nil => simp
    | cons b bs' =>
      simp only [List.zip_cons_cons, List.map_cons, List.sum_cons, List.length_cons]
      rw [ih bs']
      rw [Nat.succ_min_succ, Finset.sum_range_succ']
      simp [List.getD_cons_succ, List.getD_cons_zero, add_comm]

/-- `getD` through `List.map` at an in-bounds index. -/
theorem getD_map_of_lt {A B : Type} (f : A → B) (l : List A) (k : ℕ) (d : B)
    (h : k < l.length) : (l.map f).getD k d = f (l.get ⟨k, h⟩) := by
  rw [List.getD_eq_getElem?_getD, List.getElem?_map, List.getElem?_eq_getElem h]
  simp

/-- `getD` on a mapped range at an in-bounds index. -/
theorem getD_map_range (f : ℕ → ℚ) (n k : ℕ) (hk : k < n) :
    ((List.range n).map f).getD k 0 = f k := by
  rw [getD_map_of_lt f _ k 0 (by simpa using hk)]
  simp

/-! ## Claim theorems: NStepCache -/

/-- C1: after `reset` followed by `n + 1` non-terminal `add` calls the cache is
ready, and `pop` emits a transition whose `S`/`A` come from the first added
step, whose `Rn` is the discounted sum `∑ k < n, gamma^k * r_k` of the first
`n` rewards, whose bootstrap anchor `(S_next, A_next, logp_next)` is the step
added by the `(n+1)`-th `add`, and which is non-terminal (`In = gamma^n`). -/
theorem nstep_full_window_pop {σ α : Type} (n : ℕ) (gamma : ℚ)
    (steps : List (Step σ α)) (hn : 1 ≤ n) (hg0 : 0 ≤ gamma) (hg1 : gamma ≤ 1)
    (hlen : steps.length = n + 1) (hdone : ∀ st ∈ steps, st.done = false) :
    (NStepCache.addAll (NStepCache.init n gamma) steps).map NStepCache.ready = .ok true
    ∧ ((NStepCache.addAll (NStepCache.init n gamma) steps).bind NStepCache.pop).map
        (fun p => (p.1.S, p.1.A, p.1.Rn, p.1.In, p.1.S_next, p.1.A_next, p.1.logp_next))
      = .ok ((steps.get ⟨0, by omega⟩).s, (steps.get ⟨0, by omega⟩).a,
             ∑ k ∈ Finset.range n, gamma ^ k * (steps.map Step.r).getD k 0,
             gamma ^ n,
             (steps.get ⟨n, by omega⟩).s, (steps.get ⟨n, by omega⟩).a,
             (steps.get ⟨n, by omega⟩).logp) := by
  obtain ⟨m, rfl⟩ : ∃ m, n = m + 1 := ⟨n - 1, by omega⟩
  rw [NStepCache.addAll_ok steps (NStepCache.init (m + 1) gamma) rfl hdone]
  cases steps with
  | nil => simp at hlen
  | cons st0 rest =>
    have hrl : rest.length = m + 1 := by simpa using hlen
    constructor
    · simp [Except.map, NStepCache.ready, NStepCache.len, NStepCache.init, NStepCache.reset, hrl]
    · simp only [Except.bind, Except.map, NStepCache.pop, NStepCache.ready, NStepCache.len,
        NStepCache.init, NStepCache.reset, List.map_cons, List.nil_append, Step.sap,
        List.length_cons, hrl, List.length_map]
      have hmlt : m < rest.length := by omega
      have hgetD : (List.map Step.sap rest).getD (m + 1 - 1) (st0.s, st0.a, st0.logp)
          = Step.sap (rest.get ⟨m, hmlt⟩) := by
        simpa using getD_map_of_lt Step.sap rest m (st0.s, st0.a, st0.logp)
          (by simpa using hmlt)
      have htake : (((List.range (m + 1)).map (fun k => gamma ^ k)).zip
            (st0.r :: List.map Step.r rest)).take (m + 1)
          = ((List.range (m + 1)).map (fun k => gamma ^ k)).zip
            (st0.r :: List.map Step.r rest) := by
        apply List.take_of_length_le
        rw [List.length_zip]
        simp [hrl]
      have hsum : ((((List.range (m + 1)).map (fun k => gamma ^ k)).zip
            (st0.r :: List.map Step.r rest)).map (fun p => p.1 * p.2)).sum
          = ∑ k ∈ Finset.range (m + 1), gamma ^ k * (st0.r :: List.map Step.r rest).getD k 0 := by
        rw [sum_map_mul_zip]
        have hmin : min ((List.range (m + 1)).map (fun k => gamma ^ k)).length
            (st0.r :: List.map Step.r rest).length = m + 1 := by
          simp [hrl]
        rw [hmin]
        refine Finset.sum_congr rfl (fun k hk => ?_)
        rw [getD_map_range (fun k => gamma ^ k) (m + 1) k (Finset.mem_range.mp hk)]
      simp only [htake, hsum, hgetD, TransitionSingle.to_batch, Step.sap,
        ge_iff_le, le_refl, if_true, Bool.false_or]
      simp [List.get_cons_succ, NStepCache.len]

/-- Witness for C1 at `n = 1`, `gamma = 1`, two non-terminal steps. -/
theorem nstep_full_window_pop_witness :
    (NStepCache.addAll (NStepCache.init 1 1)
        [(⟨10, 20, 3, false, 0⟩ : Step ℕ ℕ), ⟨11, 21, 4, false, 7⟩]).map NStepCache.ready
      = .ok true
    ∧ ((NStepCache.addAll (NStepCache.init 1 1)
        [(⟨10, 20, 3, false, 0⟩ : Step ℕ ℕ), ⟨11, 21, 4, false, 7⟩]).bind NStepCache.pop).map
        (fun p => (p.1.S, p.1.A, p.1.Rn, p.1.In, p.1.S_next, p.1.A_next, p.1.logp_next))
      = .ok (10, 20, 3, 1, 11, 21, 7) := by
  have h := nstep_full_window_pop 1 1
    [(⟨10, 20, 3, false, 0⟩ : Step ℕ ℕ), ⟨11, 21, 4, false, 7⟩]
    (by decide) (by decide) (by decide) (by decide) (by decide)
  refine ⟨h.1, ?_⟩
  rw [h.2]
  norm_num [Finset.sum_range_one]

/-- C2: when fewer than `n` entries remain after removing the oldest one, the
emitted transition is terminal: the bootstrap anchor collapses to the popped
step's own `(s, a, logp)` (so `S_next`, `A_next`, `logp_next` equal `S`, `A`,
`logp`), and `In` is `0` regardless of `gamma`. -/
theorem nstep_pop_short_collapses_terminal {σ α : Type}
    (c : NStepCache σ α) (tb : TransitionBatch σ α) (c' : NStepCache σ α)
    (hpop : c.pop = .ok (tb, c')) (hshort : c.deque_sap.length ≤ c.n) :
    tb.In = 0 ∧ tb.S_next = tb.S ∧ tb.A_next = tb.A ∧ tb.logp_next = tb.logp := by
  unfold NStepCache.pop at hpop
  by_cases hr : c.ready
  · simp only [hr, if_true] at hpop
    cases hsap : c.deque_sap with
    | nil => simp [hsap] at hpop
    | cons x rest =>
      obtain ⟨s, a, lp⟩ := x
      rw [hsap] at hshort
      have hlt : ¬ rest.length ≥ c.n := by simp at hshort ⊢; omega
      simp only [hsap, hlt, ge_iff_le, if_neg, ite_false, TransitionSingle.to_batch,
        Except.ok.injEq, Prod.mk.injEq] at hpop
      obtain ⟨h1, h2⟩ := hpop
      subst h1
      simp
  · simp [hr] at hpop

/-- Witness for C2: a one-entry, episode-done cache with `n = 2`. -/
theorem nstep_pop_short_collapses_terminal_witness :
    (⟨5, 6, 7, 9, 0, 5, 6, 7⟩ : TransitionBatch ℕ ℕ).In = 0
    ∧ (⟨5, 6, 7, 9, 0, 5, 6, 7⟩ : TransitionBatch ℕ ℕ).S_next
        = (⟨5, 6, 7, 9, 0, 5, 6, 7⟩ : TransitionBatch ℕ ℕ).S
    ∧ (⟨5, 6, 7, 9, 0, 5, 6, 7⟩ : TransitionBatch ℕ ℕ).A_next
        = (⟨5, 6, 7, 9, 0, 5, 6, 7⟩ : TransitionBatch ℕ ℕ).A
    ∧ (⟨5, 6, 7, 9, 0, 5, 6, 7⟩ : TransitionBatch ℕ ℕ).logp_next
        = (⟨5, 6, 7, 9, 0, 5, 6, 7⟩ : TransitionBatch ℕ ℕ).logp :=
  nstep_pop_short_collapses_terminal
    (⟨2, 1, [(5, 6, 7)], [9], true, [1, 1], 1⟩ : NStepCache ℕ ℕ)
    ⟨5, 6, 7, 9, 0, 5, 6, 7⟩
    ⟨2, 1, [], [], true, [1, 1], 1⟩
    (by norm_num [NStepCache.pop, NStepCache.ready, NStepCache.len, TransitionSingle.to_batch])
    (by decide)

/-- C3: the cache is ready to pop iff it holds at least one entry and either
the episode-done flag is set or it holds strictly more than `n` entries; a
`pop` on a non-ready cache raises the insufficient-cache error (before any
queue is touched, so the state is unchanged). -/
theorem nstep_ready_iff_and_pop_error {σ α : Type} (c : NStepCache σ α) :
    (c.ready = true ↔ (c.deque_sap.length ≠ 0 ∧ (c.done = true ∨ c.n < c.deque_sap.length)))
    ∧ (c.ready = false → c.pop = .error .insufficientCache) := by
  constructor
  · simp [NStepCache.ready, NStepCache.len]
  · intro h
    simp [NStepCache.pop, h]

/-- Witness for C3 at an empty cache. -/
theorem nstep_ready_iff_and_pop_error_witness :
    (⟨1, 1, [], [], false, [1], 1⟩ : NStepCache ℕ ℕ).pop = .error .insufficientCache :=
  (nstep_ready_iff_and_pop_error ⟨1, 1, [], [], false, [1], 1⟩).2 (by decide)

/-- C4: `add` raises the episode-done error iff the recorded done flag is set
and the cache is non-empty (on the error, nothing is appended: no success
state is produced); otherwise — in particular whenever the cache has been
drained to empty, even with the done flag still set — `add` succeeds,
appending one entry to each queue and setting the done flag to the new
step's value. -/
theorem nstep_add_error_iff {σ α : Type} (c : NStepCache σ α) (s : σ) (a : α)
    (r lp : ℚ) (d : Bool) :
    (c.add s a r d lp = .error .episodeDone ↔ (c.done = true ∧ c.deque_sap.length ≠ 0))
    ∧ (c.add s a r d lp ≠ .error .episodeDone →
        c.add s a r d lp = .ok
          { c with
            deque_sap := c.deque_sap ++ [(s, a, lp)]
            deque_r := c.deque_r ++ [r]
            done := d })
    ∧ (c.deque_sap.length = 0 →
        c.add s a r d lp = .ok
          { c with
            deque_sap := c.deque_sap ++ [(s, a, lp)]
            deque_r := c.deque_r ++ [r]
            done := d }) := by
  unfold NStepCache.add NStepCache.len
  by_cases hcond : c.done = true ∧ c.deque_sap.length ≠ 0
  · simp [hcond.1, hcond.2]
  · refine ⟨?_, ?_, ?_⟩ <;> simp_all [NStepCache.len]

/-- Witness for C4: the error case on a done, non-empty cache, and the
success case on a drained cache whose done flag is still set. -/
theorem nstep_add_error_iff_witness :
    (⟨1, 1, [(0, 0, 0)], [2], true, [1], 1⟩ : NStepCache ℕ ℕ).add 1 2 3 false 4
      = .error .episodeDone
    ∧ (⟨1, 1, [], [], true, [1], 1⟩ : NStepCache ℕ ℕ).add 1 2 3 false 4
      = .ok ⟨1, 1, [(1, 2, 4)], [3], false, [1], 1⟩ :=
  ⟨(nstep_add_error_iff ⟨1, 1, [(0, 0, 0)], [2], true, [1], 1⟩ 1 2 3 4 false).1.mpr
      ⟨rfl, by decide⟩,
   (nstep_add_error_iff ⟨1, 1, [], [], true, [1], 1⟩ 1 2 3 4 false).2.2 (by decide)⟩

/-- C10: the two queues are both empty after `reset`; every successful `add`
appends exactly one entry to each queue, and every successful `pop` removes
exactly one entry from each queue — two independent implications, so the
statement covers adds during the accumulating phase and pops during the
drain phase alike. Equal queue length is therefore preserved by every
operation of the embedding (the only operations that touch the queues). -/
theorem nstep_queue_invariant {σ α : Type} (c : NStepCache σ α)
    (s : σ) (a : α) (r lp : ℚ) (d : Bool)
    (hwf : c.deque_sap.length = c.deque_r.length) :
    (c.reset.deque_sap.length = 0 ∧ c.reset.deque_r.length = 0)
    ∧ (∀ c', c.add s a r d lp = .ok c' →
        c'.deque_sap.length = c.deque_sap.length + 1
        ∧ c'.deque_r.length = c.deque_r.length + 1
        ∧ c'.deque_sap.length = c'.deque_r.length)
    ∧ (∀ tb cp, c.pop = .ok (tb, cp) →
        cp.deque_sap.length + 1 = c.deque_sap.length
        ∧ cp.deque_r.length + 1 = c.deque_r.length
        ∧ cp.deque_sap.length = cp.deque_r.length) := by
  refine ⟨⟨by simp [NStepCache.reset], by simp [NStepCache.reset]⟩, ?_, ?_⟩
  · intro c' hadd
    unfold NStepCache.add at hadd
    split at hadd
    · exact absurd hadd (by simp)
    · obtain rfl : _ = c' := Except.ok.inj hadd
      refine ⟨by simp, by simp, by simp; omega⟩
  · intro tb cp hpop
    unfold NStepCache.pop at hpop
    by_cases hr : c.ready
    · simp only [hr, if_true] at hpop
      have hne : c.deque_sap.length ≠ 0 := by
        by_contra h0
        simp [NStepCache.ready, NStepCache.len, h0] at hr
      cases hsap : c.deque_sap with
      | nil => simp [hsap] at hne
      | cons x rest =>
        obtain ⟨s0, a0, lp0⟩ := x
        simp only [hsap, Except.ok.injEq, Prod.mk.injEq] at hpop
        obtain ⟨h1, h2⟩ := hpop
        subst h2
        have hrlen : c.deque_r.length = rest.length + 1 := by
          rw [← hwf, hsap]; simp
        have hsaplen : c.deque_sap.length = rest.length + 1 := by simp [hsap]
        refine ⟨?_, ?_, ?_⟩ <;>
          simp [List.length_tail] <;> omega
    · simp [hr] at hpop

/-- Witness for C10: an accumulating-phase `add` (one entry, `n = 2`,
`done = false`, so the cache is not yet ready) and a drain-phase `pop`
(one entry, `n = 2`, `done = true`, the collapsed-anchor scenario), on two
different caches. -/
theorem nstep_queue_invariant_witness :
    ((⟨2, 1, [(1, 2, 3), (9, 10, 12)], [4, 11], false, [1, 1], 1⟩
        : NStepCache ℕ ℕ).deque_sap.length
      = (⟨2, 1, [(1, 2, 3)], [4], false, [1, 1], 1⟩ : NStepCache ℕ ℕ).deque_sap.length + 1
    ∧ (⟨2, 1, [(1, 2, 3), (9, 10, 12)], [4, 11], false, [1, 1], 1⟩
        : NStepCache ℕ ℕ).deque_r.length
      = (⟨2, 1, [(1, 2, 3)], [4], false, [1, 1], 1⟩ : NStepCache ℕ ℕ).deque_r.length + 1
    ∧ (⟨2, 1, [(1, 2, 3), (9, 10, 12)], [4, 11], false, [1, 1], 1⟩
        : NStepCache ℕ ℕ).deque_sap.length
      = (⟨2, 1, [(1, 2, 3), (9, 10, 12)], [4, 11], false, [1, 1], 1⟩
        : NStepCache ℕ ℕ).deque_r.length)
    ∧ ((⟨2, 1, [], [], true, [1, 1], 1⟩ : NStepCache ℕ ℕ).deque_sap.length + 1
      = (⟨2, 1, [(1, 2, 3)], [4], true, [1, 1], 1⟩ : NStepCache ℕ ℕ).deque_sap.length
    ∧ (⟨2, 1, [], [], true, [1, 1], 1⟩ : NStepCache ℕ ℕ).deque_r.length + 1
      = (⟨2, 1, [(1, 2, 3)], [4], true, [1, 1], 1⟩ : NStepCache ℕ ℕ).deque_r.length
    ∧ (⟨2, 1, [], [], true, [1, 1], 1⟩ : NStepCache ℕ ℕ).deque_sap.length
      = (⟨2, 1, [], [], true, [1, 1], 1⟩ : NStepCache ℕ ℕ).deque_r.length) :=
  ⟨(nstep_queue_invariant (⟨2, 1, [(1, 2, 3)], [4], false, [1, 1], 1⟩ : NStepCache ℕ ℕ)
      9 10 11 12 false (by decide)).2.1
      ⟨2, 1, [(1, 2, 3), (9, 10, 12)], [4, 11], false, [1, 1], 1⟩ (by decide),
   (nstep_queue_invariant (⟨2, 1, [(1, 2, 3)], [4], true, [1, 1], 1⟩ : NStepCache ℕ ℕ)
      9 10 11 12 false (by decide)).2.2
      ⟨1, 2, 3, 4, 0, 1, 2, 3⟩ ⟨2, 1, [], [], true, [1, 1], 1⟩
      (by norm_num [NStepCache.pop, NStepCache.ready, NStepCache.len,
        TransitionSingle.to_batch])⟩

/-! ## SimpleTD (`coax/td_learning/_simple_td.py`) -/

/-- A state-value function approximator as used by `SimpleTD.target_func`:
`function(params, state, rng, S, is_training)` returns the value estimate and
the new internal function state. -/
structure VFunctionApprox (σ P F : Type) where
  function : P → F → ℕ → σ → Bool → ℚ × F

/-- The one-key dict `{'v_targ': x}` in which `BaseTDLearningV` packs the
target parameters and target function state. -/
structure TargetPack (A : Type) where
  v_targ : A

/-- The `SimpleTD` updater state used by `target_func`: the target value
function `v_targ` and the `(transform_func, inverse_func)` pair
`value_transform`. -/
structure SimpleTD (σ P F : Type) where
  v_targ : VFunctionApprox σ P F
  value_transform : (ℚ → ℚ) × (ℚ → ℚ)

/-- `SimpleTD.target_func(self, target_params, target_state, rng,
transition_batch)`: takes `Rn, In, S_next = transition_batch[3:6]` (the
`TransitionBatch` field order makes these fields 3..5), evaluates
`self.v_targ.function(params, state, rng, S_next, False)` discarding the new
function state, and returns `f(Rn + In * f_inv(V_next))`. -/
def SimpleTD.target_func {σ α P F : Type} (m : SimpleTD σ P F)
    (target_params : TargetPack P) (target_state : TargetPack F) (rng : ℕ)
    (transition_batch : TransitionBatch σ α) : ℚ :=
  let Rn := transition_batch.Rn
  let In := transition_batch.In
  let S_next := transition_batch.S_next
  let params := target_params.v_targ
  let state := target_state.v_targ
  let res := m.v_targ.function params state rng S_next false
  let V_next := res.1
  let f := m.value_transform.1
  let f_inv := m.value_transform.2
  f (Rn + In * f_inv V_next)

/-- Modelled from the spec: the `BaseTDLearningV` constructor (in
`coax/td_learning/_base.py`, outside the excerpt) stores the supplied
`value_transform`, defaulting to the identity pair when none is supplied
("When no transform is supplied, `f` and `f⁻¹` are both the identity"). -/
def SimpleTD.make {σ P F : Type} (v : VFunctionApprox σ P F)
    (vt : Option ((ℚ → ℚ) × (ℚ → ℚ))) : SimpleTD σ P F :=
  { v_targ := v, value_transform := vt.getD (id, id) }

/-- C5: `target_func` returns `f(Rn + In * f_inv(v_targ(S_next)))` where the
target value function is evaluated at `S_next` with `is_training = false` and
its new function state discarded, and with no value transform the target is
`Rn + In * v_targ(S_next)`. -/
theorem simple_td_target {σ α P F : Type} (m : SimpleTD σ P F)
    (v : VFunctionApprox σ P F)
    (tp : TargetPack P) (ts : TargetPack F) (rng : ℕ)
    (tb : TransitionBatch σ α) :
    m.target_func tp ts rng tb
      = m.value_transform.1 (tb.Rn + tb.In * m.value_transform.2
          ((m.v_targ.function tp.v_targ ts.v_targ rng tb.S_next false).1))
    ∧ (SimpleTD.make v none).target_func tp ts rng tb
      = tb.Rn + tb.In * (v.function tp.v_targ ts.v_targ rng tb.S_next false).1 :=
  ⟨rfl, rfl⟩

/-- Modelled from the spec: `BaseTDLearningV.update` (in
`coax/td_learning/_base.py`, outside the excerpt). Per the spec (§4.3), one
update runs the main value function forward at `S` in training mode (which is
what refreshes the internal function state), forms the gradient of the TD
loss plus the optional policy-regularization penalty, and applies one
optimizer step to the trainable parameters; the regularizer contributes only
to the parameter gradient, never to the function state. Parameters are
modelled as a single rational, the optimizer as one SGD step with rate
`lr`. -/
def BaseTDLearningV.update {σ α F : Type} (v : VFunctionApprox σ ℚ F) (lr : ℚ)
    (gradLoss : ℚ → F → TransitionBatch σ α → ℚ)
    (policy_regularizer : Option (ℚ → σ → ℚ))
    (params : ℚ) (function_state : F) (tb : TransitionBatch σ α) : ℚ × F :=
  let forward := v.function params function_state 0 tb.S true
  let new_function_state := forward.2
  let penalty :=
    match policy_regularizer with
    | some reg => reg params tb.S
    | none => 0
  let grad := gradLoss params function_state tb + penalty
  (params - lr * grad, new_function_state)

/-- C6: an update with a policy regularizer produces exactly the same
internal (non-trainable) function state as the update without it, from the
same initial parameters and function state; the regularizer only shifts the
trainable-parameter step. -/
theorem td_update_policyreg_state_invariant {σ α F : Type}
    (v : VFunctionApprox σ ℚ F) (lr : ℚ)
    (gradLoss : ℚ → F → TransitionBatch σ α → ℚ) (reg : ℚ → σ → ℚ)
    (params : ℚ) (function_state : F) (tb : TransitionBatch σ α) :
    (BaseTDLearningV.update v lr gradLoss (some reg) params function_state tb).2
      = (BaseTDLearningV.update v lr gradLoss none params function_state tb).2
    ∧ (BaseTDLearningV.update v lr gradLoss (some reg) params function_state tb).1
      = params - lr * (gradLoss params function_state tb + reg params tb.S) :=
  ⟨rfl, rfl⟩

/-! ## DynamicsModel (`coax/_core/dynamics_model.py`, outside the excerpt;
behavior documented by `coax/_core/dynamics_model_test.py` and the spec) -/

/-- Modelled from the spec: a space descriptor is either discrete (an integer
count of categories) or a box (a bounded real tensor; one bound pair and a
flat size suffice for the contract being verified). -/
inductive Space where
  | discrete (n : ℕ)
  | box (low high : ℚ) (size : ℕ)
deriving DecidableEq, Repr

/-- Whether a space is a `Discrete` space. -/
def Space.isDiscrete : Space → Bool
  | .discrete _ => true
  | .box _ _ _ => false

/-- The gym well-formedness of a space: a discrete space has at least one
category and a box has ordered bounds. -/
def Space.valid : Space → Prop
  | .discrete n => 0 < n
  | .box low high _ => low ≤ high

instance : DecidablePred Space.valid := by
  intro sp
  cases sp <;> simp [Space.valid] <;> infer_instance

/-- Modelled from the spec: an element of a space — an action/state index for
discrete spaces, a flat tensor for box spaces. -/
inductive Value where
  | idx (i : ℕ)
  | tensor (xs : List ℚ)
deriving DecidableEq, Repr

/-- Space membership (`assertIn(s_next, observation_space)` in the tests). -/
def Space.contains : Space → Value → Bool
  | .discrete n, .idx i => decide (i < n)
  | .box low high size, .tensor xs =>
      decide (xs.length = size) && xs.all (fun x => decide (low ≤ x) && decide (x ≤ high))
  | _, _ => false

/-- Modelled from the spec: the distribution parameters returned by a user
function — `{logits}` for a categorical head, `{mu, logvar}` for a diagonal
Gaussian head. -/
inductive DistParams where
  | categorical (logits : List ℚ)
  | gaussian (mu : List ℚ) (logvar : List ℚ)
deriving DecidableEq, Repr

/-- Modelled from the spec: the output field set required for a declared
output space — exactly `{logits}` for discrete, exactly `{mu, logvar}` for
box; listed in the sorted key order the structural error message uses. -/
def requiredFields : Space → List String
  | .discrete _ => ["logits"]
  | .box _ _ _ => ["logvar", "mu"]

/-- Modelled from the spec: a probed user function — its signature shape
(`type1` distinguishes `func(S, A, is_training)` from `func(S, is_training)`),
the field names of the structure it returned at the probe evaluation, and
the distribution parameters it computes. -/
structure UserFunc where
  type1 : Bool
  outFields : List String
  out : Value → Value → DistParams

/-- Modelled from the spec: the `TypeError`s raised at construction — the
dedicated type-2/non-discrete-action error, and the structural mismatch
error carrying both the expected and the actual field structure. -/
inductive ConstructError where
  | type2NonDiscreteAction
  | badStructure (expected actual : List String)
deriving DecidableEq, Repr

/-- A constructed dynamics model. -/
structure DynamicsModel where
  func : UserFunc
  observation_space : Space
  action_space : Space

/-- Modelled from the spec: `DynamicsModel` construction. A type-2 model over
a non-discrete action space fails with the dedicated type error; then the
probed output structure must match the required structure for the declared
output space, compared order-independently (`List.Perm`); a mismatch fails
with a structural error reporting both structures. All checks run eagerly at
construction. -/
def DynamicsModel.construct (f : UserFunc) (observation_space action_space : Space) :
    Except ConstructError DynamicsModel :=
  if f.type1 = false ∧ action_space.isDiscrete = false then
    .error .type2NonDiscreteAction
  else if f.outFields.Perm (requiredFields observation_space) then
    .ok ⟨f, observation_space, action_space⟩
  else
    .error (.badStructure (requiredFields observation_space) f.outFields)

/-- Whether an `Except` computation succeeded. -/
def exceptIsOk {E A : Type} : Except E A → Bool
  | .ok _ => true
  | .error _ => false

/-- Clamp a rational into `[low, high]`. -/
def clamp (low high x : ℚ) : ℚ := min high (max low x)

/-- Modelled from the spec: drawing one sample from the distribution that the
declared space and the returned parameters determine. The draw is abstracted
as a function of the parameters and the RNG that always lands inside a
well-formed space: an index reduced modulo the category count for discrete
spaces, a tensor clamped into the box bounds otherwise. -/
def sampleDist : Space → DistParams → ℕ → Value
  | .discrete n, _, rng => .idx (rng % n)
  | .box low high size, .gaussian mu _, rng =>
      .tensor ((List.range size).map (fun i => clamp low high (mu.getD i (rng : ℚ))))
  | .box low high size, .categorical _, _ =>
      .tensor ((List.range size).map (fun _ => clamp low high 0))

/-- Index of the greatest element of a list (first occurrence), 0 if empty. -/
def argmaxIdx (xs : List ℚ) : ℕ :=
  (xs.foldl
    (fun (acc : ℕ × ℕ × ℚ) x =>
      if acc.2.2 < x then (acc.2.1, acc.2.1 + 1, x) else (acc.1, acc.2.1 + 1, acc.2.2))
    (0, 0, xs.headI)).1

/-- Modelled from the spec: the mode of the distribution that the declared
space and the returned parameters determine — the argmax logit index for a
categorical head, the clamped mean for a Gaussian head. -/
def modeDist : Space → DistParams → Value
  | .discrete n, .categorical logits => .idx (argmaxIdx logits % n)
  | .discrete n, .gaussian _ _ => .idx (0 % n)
  | .box low high size, .gaussian mu _ =>
      .tensor ((List.range size).map (fun i => clamp low high (mu.getD i 0)))
  | .box low high size, .categorical _ =>
      .tensor ((List.range size).map (fun _ => clamp low high 0))

/-- Modelled from the spec: the per-call `ValueError` for a type-1 model
invoked without its action input. -/
inductive CallError where
  | missingInput (name : String)
deriving DecidableEq, Repr

/-- The result of calling a dynamics model: one sample, or the finite
per-discrete-action enumeration in action-index order. -/
inductive CallResult where
  | single (v : Value)
  | perAction (vs : List Value)
deriving DecidableEq, Repr

/-- Modelled from the spec: `DynamicsModel.__call__(s, a=None)`. With an
action, one sample from the single conditional distribution. Without an
action: over a discrete action space, the finite sequence of one sample per
action index in order; over a non-discrete action space, the `ValueError`
naming the missing input `'A'`. -/
def DynamicsModel.call (m : DynamicsModel) (s : Value) (a : Option Value) (rng : ℕ) :
    Except CallError CallResult :=
  match a with
  | some av => .ok (.single (sampleDist m.observation_space (m.func.out s av) rng))
  | none =>
    match m.action_space with
    | .discrete na =>
        .ok (.perAction ((List.range na).map
          (fun i => sampleDist m.observation_space (m.func.out s (.idx i)) rng)))
    | .box _ _ _ => .error (.missingInput "A")

/-- Modelled from the spec: `DynamicsModel.mode(s, a=None)` — same call and
error semantics as `call`, returning the distribution mode instead of a
sample. -/
def DynamicsModel.mode (m : DynamicsModel) (s : Value) (a : Option Value) :
    Except CallError CallResult :=
  match a with
  | some av => .ok (.single (modeDist m.observation_space (m.func.out s av)))
  | none =>
    match m.action_space with
    | .discrete na =>
        .ok (.perAction ((List.range na).map
          (fun i => modeDist m.observation_space (m.func.out s (.idx i)))))
    | .box _ _ _ => .error (.missingInput "A")

/-- A clamped tensor always lies inside a well-formed box. -/
theorem contains_clamp_tensor (low high : ℚ) (size : ℕ) (g : ℕ → ℚ)
    (hv : low ≤ high) :
    Space.contains (.box low high size) (.tensor ((List.range size).map
      (fun i => clamp low high (g i)))) = true := by
  simp only [Space.contains, List.length_map, List.length_range, decide_eq_true_eq,
    Bool.and_eq_true, List.all_eq_true]
  refine ⟨by simp, ?_⟩
  intro x hx
  simp only [List.mem_map, List.mem_range] at hx
  obtain ⟨i, _, rfl⟩ := hx
  constructor
  · simp only [decide_eq_true_eq, clamp]
    exact le_min hv (le_max_left _ _)
  · simp only [decide_eq_true_eq, clamp]
    exact min_le_left _ _

/-- A sample always lies inside a well-formed space. -/
theorem sampleDist_contains (sp : Space) (p : DistParams) (rng : ℕ)
    (hv : sp.valid) : sp.contains (sampleDist sp p rng) = true := by
  cases sp with
  | discrete n =>
    cases p <;> simp [sampleDist, Space.contains] <;> exact Nat.mod_lt _ hv
  | box low high size =>
    cases p with
    | gaussian mu lv => exact contains_clamp_tensor low high size _ hv
    | categorical l => exact contains_clamp_tensor low high size _ hv

/-- The mode always lies inside a well-formed space. -/
theorem modeDist_contains (sp : Space) (p : DistParams)
    (hv : sp.valid) : sp.contains (modeDist sp p) = true := by
  cases sp with
  | discrete n =>
    cases p <;> simp [modeDist, Space.contains] <;>
      first
      | exact Nat.mod_lt _ hv
      | exact hv
  | box low high size =>
    cases p with
    | gaussian mu lv => exact contains_clamp_tensor low high size _ hv
    | categorical l => exact contains_clamp_tensor low high size _ hv

/-- C7: for any probed function (one that passes the type-2/action check),
construction succeeds iff its returned field set equals the required field
set for the declared output space, compared order-independently; any
difference yields the structural-mismatch error reporting both the expected
and the actual structure, at construction time. -/
theorem dynamics_construct_structure (f : UserFunc) (obs act : Space)
    (hOK : f.type1 = true ∨ act.isDiscrete = true) :
    (exceptIsOk (DynamicsModel.construct f obs act) = true
      ↔ f.outFields.Perm (requiredFields obs))
    ∧ (¬ f.outFields.Perm (requiredFields obs) →
        DynamicsModel.construct f obs act
          = .error (.badStructure (requiredFields obs) f.outFields)) := by
  have hne : ¬ (f.type1 = false ∧ act.isDiscrete = false) := by
    rcases hOK with h | h <;> simp [h]
  unfold DynamicsModel.construct
  rw [if_neg hne]
  by_cases hp : f.outFields.Perm (requiredFields obs)
  · rw [if_pos hp]
    exact ⟨by simp [exceptIsOk, hp], fun h => absurd hp h⟩
  · rw [if_neg hp]
    exact ⟨by simp [exceptIsOk, hp], fun _ => rfl⟩

/-- A type-1 probe function returning the field set `{logits}`. -/
def probeFuncLogits : UserFunc :=
  ⟨true, ["logits"], fun _ _ => .categorical [1, 2]⟩

/-- Witness for C7: a `{logits}` function against a box output space fails
naming `{mu, logvar}` vs `{logits}`; against a discrete output space it
succeeds. -/
theorem dynamics_construct_structure_witness :
    DynamicsModel.construct probeFuncLogits (.box 0 1 2) (.box 0 1 1)
      = .error (.badStructure ["logvar", "mu"] ["logits"])
    ∧ exceptIsOk (DynamicsModel.construct probeFuncLogits (.discrete 7) (.box 0 1 1)) = true :=
  ⟨(dynamics_construct_structure probeFuncLogits (.box 0 1 2) (.box 0 1 1)
      (Or.inl rfl)).2 (by decide),
   (dynamics_construct_structure probeFuncLogits (.discrete 7) (.box 0 1 1)
      (Or.inl rfl)).1.mpr (by decide)⟩

/-- C8: constructing a type-2 model over a non-discrete action space always
fails with the dedicated type error, regardless of the output space;
type-2 construction over a discrete action space with a conforming function
succeeds. -/
theorem dynamics_type2_requires_discrete_action (f : UserFunc) (obs act : Space)
    (h2 : f.type1 = false) :
    (act.isDiscrete = false →
        DynamicsModel.construct f obs act = .error .type2NonDiscreteAction)
    ∧ (act.isDiscrete = true → f.outFields.Perm (requiredFields obs) →
        DynamicsModel.construct f obs act = .ok ⟨f, obs, act⟩) := by
  constructor
  · intro hnd
    unfold DynamicsModel.construct
    rw [if_pos ⟨h2, hnd⟩]
  · intro hd hp
    unfold DynamicsModel.construct
    rw [if_neg (by simp [hd]), if_pos hp]

/-- A type-2 probe function returning the field set `{logits}`. -/
def probeFuncLogits2 : UserFunc :=
  ⟨false, ["logits"], fun _ _ => .categorical [1, 2]⟩

/-- Witness for C8: type-2 over a box action space fails even with a
discrete output space; type-2 over a discrete action space succeeds. -/
theorem dynamics_type2_requires_discrete_action_witness :
    DynamicsModel.construct probeFuncLogits2 (.discrete 7) (.box 0 1 3)
      = .error .type2NonDiscreteAction
    ∧ DynamicsModel.construct probeFuncLogits2 (.discrete 7) (.discrete 7)
      = .ok ⟨probeFuncLogits2, .discrete 7, .discrete 7⟩ :=
  ⟨(dynamics_type2_requires_discrete_action probeFuncLogits2 (.discrete 7) (.box 0 1 3)
      rfl).1 rfl,
   (dynamics_type2_requires_discrete_action probeFuncLogits2 (.discrete 7) (.discrete 7)
      rfl).2 rfl (by decide)⟩

/-- C9: a type-1 model called without an action fails with the ValueError
naming `'A'` when the action space is non-discrete; when the action space is
discrete, `call` returns one sample per discrete action in action-index
order — a list of length equal to the number of actions, each element a
member of the declared output space — and `mode` has the same semantics. -/
theorem dynamics_call_without_action (m : DynamicsModel) (s : Value) (rng : ℕ)
    (h1 : m.func.type1 = true) :
    (m.action_space.isDiscrete = false →
        m.call s none rng = .error (.missingInput "A")
        ∧ m.mode s none = .error (.missingInput "A"))
    ∧ (∀ na, m.action_space = .discrete na → m.observation_space.valid →
        m.call s none rng = .ok (.perAction ((List.range na).map
          (fun i => sampleDist m.observation_space (m.func.out s (.idx i)) rng)))
        ∧ m.mode s none = .ok (.perAction ((List.range na).map
          (fun i => modeDist m.observation_space (m.func.out s (.idx i)))))
        ∧ ((List.range na).map
            (fun i => sampleDist m.observation_space (m.func.out s (.idx i)) rng)).length = na
        ∧ (∀ v ∈ (List.range na).map
            (fun i => sampleDist m.observation_space (m.func.out s (.idx i)) rng),
            m.observation_space.contains v = true)
        ∧ (∀ v ∈ (List.range na).map
            (fun i => modeDist m.observation_space (m.func.out s (.idx i))),
            m.observation_space.contains v = true)) := by
  constructor
  · intro hnd
    cases hact : m.action_space with
    | discrete na => rw [hact] at hnd; simp [Space.isDiscrete] at hnd
    | box lo hi sz =>
      constructor
      · simp [DynamicsModel.call, hact]
      · simp [DynamicsModel.mode, hact]
  · intro na heq hval
    refine ⟨by simp [DynamicsModel.call, heq], by simp [DynamicsModel.mode, heq],
            by simp, ?_, ?_⟩
    · intro v hv
      simp only [List.mem_map, List.mem_range] at hv
      obtain ⟨i, _, rfl⟩ := hv
      exact sampleDist_contains _ _ _ hval
    · intro v hv
      simp only [List.mem_map, List.mem_range] at hv
      obtain ⟨i, _, rfl⟩ := hv
      exact modeDist_contains _ _ hval

/-- A type-1 model over a box action space. -/
def dmNonDiscreteAct : DynamicsModel :=
  ⟨probeFuncLogits, .discrete 2, .box 0 1 3⟩

/-- A type-1 model over a discrete action space. -/
def dmDiscreteAct : DynamicsModel :=
  ⟨probeFuncLogits, .discrete 2, .discrete 3⟩

/-- Witness for C9: the missing-input error over a box action space, and the
3-element per-action enumeration (with every element inside the observation
space) over a discrete action space. -/
theorem dynamics_call_without_action_witness :
    dmNonDiscreteAct.call (.idx 0) none 5 = .error (.missingInput "A")
    ∧ dmNonDiscreteAct.mode (.idx 0) none = .error (.missingInput "A")
    ∧ dmDiscreteAct.call (.idx 0) none 5 = .ok (.perAction ((List.range 3).map
        (fun i => sampleDist dmDiscreteAct.observation_space
          (dmDiscreteAct.func.out (.idx 0) (.idx i)) 5)))
    ∧ dmDiscreteAct.mode (.idx 0) none = .ok (.perAction ((List.range 3).map
        (fun i => modeDist dmDiscreteAct.observation_space
          (dmDiscreteAct.func.out (.idx 0) (.idx i)))))
    ∧ ((List.range 3).map
        (fun i => sampleDist dmDiscreteAct.observation_space
          (dmDiscreteAct.func.out (.idx 0) (.idx i)) 5)).length = 3
    ∧ ((List.range 3).map
        (fun i => sampleDist dmDiscreteAct.observation_space
          (dmDiscreteAct.func.out (.idx 0) (.idx i)) 5)).all
        (fun v => dmDiscreteAct.observation_space.contains v) = true := by
  have h1 := (dynamics_call_without_action dmNonDiscreteAct (.idx 0) 5 rfl).1 rfl
  have h2 := (dynamics_call_without_action dmDiscreteAct (.idx 0) 5 rfl).2 3 rfl
    (by simp [dmDiscreteAct, Space.valid])
  exact ⟨h1.1, h1.2, h2.1, h2.2.1, h2.2.2.1,
    List.all_eq_true.mpr (fun v hv => h2.2.2.2.1 v hv)⟩

end Coax
